import Mathlib

/-!
# Verification of `spectral/algorithms/classifiers.py`

A shallow embedding of the supervised classifiers of the Spectral Python
package (`Classifier`, `SupervisedClassifier`, `GaussianClassifier`,
`MahalanobisDistanceClassifier`) together with proofs of the behavioural
properties claimed by the specification.

Modelling conventions:

* Machine floats are idealised as exact rationals (`ℚ`).  `math.log` is a
  transcendental function with no rational counterpart, so every definition
  that the source feeds through `math.log` takes an explicit uninterpreted
  function `rlog : ℚ → ℚ` standing for it; none of the verified properties
  depend on the values taken by the logarithm, only on both execution paths
  calling the same function on the same argument.
* Vectors over the `B` spectral bands are `Fin B → ℚ`, matrices are
  `Fin B → Fin B → ℚ`, an `M × N × B` image is `Fin M → Fin N → (Fin B → ℚ)`
  and a class map is `Fin M → Fin N → Int` (its `(rows, cols)` shape is
  carried by the types).
* Python code that raises an exception is embedded as a function into
  `Option` / `Except` returning `none` / `.error` at exactly the inputs on
  which the source raises.
* Progress reporting (`spectral._status`) is purely observational (the spec
  requires it to tolerate being a no-op) and is not modelled, except for the
  `ZeroDivisionError` that the progress arithmetic of
  `Classifier.classify_image` can raise, which is modelled faithfully.
-/

/-! ## Linear-algebra helpers

The two execution paths of the source compute the quadratic form
`dᵗ · A · d` with different `numpy` expressions; both are embedded literally.
-/
/-- Dot product of two `B`-vectors. -/
def dotp {B : Nat} (u v : Fin B → ℚ) : ℚ := ∑ i, u i * v i

/-- `numpy.dot(A, d)` for a `B×B` matrix and a column vector, as in
`dot(cl.stats.inv_cov, delta)`. -/
def matVec {B : Nat} (A : Fin B → Fin B → ℚ) (d : Fin B → ℚ) : Fin B → ℚ :=
  fun i => ∑ j, A i j * d j

/-- `delta.dot(inv_cov)` for a row vector and a `B×B` matrix, as in the
batched path `Y = delta.dot(c.stats.inv_cov)`. -/
def vecMat {B : Nat} (d : Fin B → ℚ) (A : Fin B → Fin B → ℚ) : Fin B → ℚ :=
  fun j => ∑ k, d k * A k j

/-- The per-pixel quadratic form of the streaming path:
`dot(transpose(delta), dot(inv_cov, delta))`. -/
def quad_stream {B : Nat} (A : Fin B → Fin B → ℚ) (d : Fin B → ℚ) : ℚ :=
  dotp d (matVec A d)

/-- The per-pixel quadratic form of the batched path:
`np.einsum('ij,ij->i', Y, delta)` with `Y = delta.dot(inv_cov)`,
restricted to one row. -/
def quad_batched {B : Nat} (A : Fin B → Fin B → ℚ) (d : Fin B → ℚ) : ℚ :=
  dotp (vecMat d A) d

/-! ## Data model

`GaussianStats` mirrors the external per-class statistics record
(`mean`, `cov`, `inv_cov`, `log_det_cov`, `nsamples`); the statistics
routine that fills it is external to this file's source and the fields are
taken as given, already mutually consistent.  `TrainingClass` carries the
class label `index`, the sample count `size` (the Python `cl.size()`), the
prior `class_prob` and the statistics.  `TrainingClassSet` is the ordered
training collection; its band count is the type index `B`
(`training_data.nbands`). -/
structure GaussianStats (B : Nat) where
  mean : Fin B → ℚ
  cov : Fin B → Fin B → ℚ
  inv_cov : Fin B → Fin B → ℚ
  log_det_cov : ℚ
  nsamples : Nat

structure TrainingClass (B : Nat) where
  index : Int
  size : Nat
  class_prob : ℚ
  stats : GaussianStats B

structure TrainingClassSet (B : Nat) where
  classes : List (TrainingClass B)

/-- A trained `GaussianClassifier`: the resolved `min_samples` threshold and
the ordered list of retained training classes. -/
structure GaussianClassifier (B : Nat) where
  min_samples : Nat
  classes : List (TrainingClass B)

/-- A trained `MahalanobisDistanceClassifier`: the Gaussian training result
plus the pooled `background` statistics record. -/
structure MahalanobisDistanceClassifier (B : Nat) where
  min_samples : Nat
  classes : List (TrainingClass B)
  background : GaussianStats B

/-! ## `Classifier.classify_spectrum` (abstract base) -/
/-- `Classifier.classify_spectrum` unconditionally raises
`NotImplementedError`, whatever `*args, **kwargs` it receives. -/
def Classifier.classify_spectrum {α : Type} (_args : α) : Except String Int :=
  Except.error "Classifier.classify_spectrum must be overridden by a child class."

/-! ## `GaussianClassifier.train`

The constructor stores `min_samples` if the supplied value is truthy
(`if min_samples:`), i.e. a supplied `0` is treated like `None`; `train`
then substitutes the band count for a still-falsy threshold
(`if not self.min_samples:`). -/
/-- Resolution of the `min_samples` threshold at the start of `train`:
`None` (and, by Python truthiness, `0`) defaults to the number of bands. -/
def resolve_min_samples (min_samples : Option Nat) (nbands : Nat) : Nat :=
  match min_samples with
  | none => nbands
  | some 0 => nbands
  | some m => m

/-- The class-selection loop of `GaussianClassifier.train`:
`for cl in training_data: if cl.size() >= self.min_samples:
self.classes.append(cl) else: print(...)`. -/
def train_select {B : Nat} (ms : Nat) : List (TrainingClass B) → List (TrainingClass B)
  | [] => []
  | cl :: rest =>
    if ms ≤ cl.size then cl :: train_select ms rest else train_select ms rest

/-- The diagnostic lines printed by the same loop: one `(index, size)` pair
per omitted class, in iteration order. -/
def train_omitted {B : Nat} (ms : Nat) : List (TrainingClass B) → List (Int × Nat)
  | [] => []
  | cl :: rest =>
    if ms ≤ cl.size then train_omitted ms rest
    else (cl.index, cl.size) :: train_omitted ms rest

/-- `GaussianClassifier.train`.  The trailing `calc_stats` loop only forces
the lazily cached statistics, which the embedding carries as ordinary
fields. -/
def gaussian_train {B : Nat} (min_samples : Option Nat) (td : TrainingClassSet B) :
    GaussianClassifier B :=
  let ms := resolve_min_samples min_samples B
  { min_samples := ms, classes := train_select ms td.classes }

/-- Diagnostics produced by `GaussianClassifier.train` (omitted-class report;
printed to stdout, it is not an error). -/
def gaussian_train_diagnostics {B : Nat} (min_samples : Option Nat)
    (td : TrainingClassSet B) : List (Int × Nat) :=
  train_omitted (resolve_min_samples min_samples B) td.classes

/-! ## `MahalanobisDistanceClassifier.train` -/
/-- The pooled-covariance accumulation loop:
`covariance = zeros(...); for cl in self.classes:
covariance += cl.stats.nsamples * cl.stats.cov`. -/
def pooled_cov {B : Nat} (classes : List (TrainingClass B)) : Fin B → Fin B → ℚ :=
  classes.foldl
    (fun acc cl => fun i j => acc i j + (cl.stats.nsamples : ℚ) * cl.stats.cov i j)
    (fun _ _ => 0)

/-- `MahalanobisDistanceClassifier.train`: Gaussian training, then the pooled
background statistics.  When training retains no class the source raises
`IndexError` at `self.classes[0].stats.cov.shape`, hence `none`.  The
external `GaussianStats` class derives `inv_cov` lazily from the stored
covariance; that external inversion routine is the explicit parameter
`matinv`.  `mean` is left unset by `GaussianStats(cov=covariance)` (it is
only scratch state of the batched path); the embedding stores `0` for it,
and `log_det_cov` / `nsamples` likewise stay at their unset defaults. -/
def mahalanobis_train {B : Nat}
    (matinv : (Fin B → Fin B → ℚ) → (Fin B → Fin B → ℚ))
    (min_samples : Option Nat) (td : TrainingClassSet B) :
    Option (MahalanobisDistanceClassifier B) :=
  let g := gaussian_train min_samples td
  match g.classes with
  | [] => none
  | _ :: _ =>
    let cov := pooled_cov g.classes
    some { min_samples := g.min_samples
           classes := g.classes
           background :=
             { mean := fun _ => 0, cov := cov, inv_cov := matinv cov
               log_det_cov := 0, nsamples := 0 } }

/-! ## The selection scan

Both streaming `classify_spectrum` loops have the same shape: scan the
classes in order keeping a running best score, replacing it only on a
strictly better score (`prob[0,0] > max_prob` resp. `d2 < d2_min`), the
`first` flag making the first class's score the initial best.  `np.argmax`
and `np.argmin` over one row have the same first-winner semantics.  All four
are embedded through `scan_sel` below: the wrapper peels the first element
(the `first` iteration) and `scan_sel` performs the remaining comparisons. -/
def scan_sel {α : Type} (gt : ℚ → ℚ → Bool) :
    List (α × ℚ) → (α × ℚ) → (α × ℚ)
  | [], best => best
  | p :: rest, best =>
    if gt p.2 best.2 then scan_sel gt rest p else scan_sel gt rest best

/-- `SelSpec r full k`: position `k` holds the first `r`-best element of
`full` (no element is strictly better than it, and it is strictly better
than everything before it). -/
def SelSpec {α : Type} (r : ℚ → ℚ → Prop) (full : List (α × ℚ)) (k : Nat) : Prop :=
  ∃ hk : k < full.length,
    (∀ j (hj : j < full.length), ¬ r (full.get ⟨j, hj⟩).2 (full.get ⟨k, hk⟩).2) ∧
    (∀ j (hj : j < full.length), j < k → r (full.get ⟨k, hk⟩).2 (full.get ⟨j, hj⟩).2)

/-- First position of the maximum of a list of scores: every score is `≤` it
and every earlier score is `<` it. -/
def IsFirstMax (l : List ℚ) (k : Nat) : Prop :=
  ∃ hk : k < l.length,
    (∀ j (hj : j < l.length), l.get ⟨j, hj⟩ ≤ l.get ⟨k, hk⟩) ∧
    (∀ j (hj : j < l.length), j < k → l.get ⟨j, hj⟩ < l.get ⟨k, hk⟩)

/-- First position of the minimum of a list of scores. -/
def IsFirstMin (l : List ℚ) (k : Nat) : Prop :=
  ∃ hk : k < l.length,
    (∀ j (hj : j < l.length), l.get ⟨k, hk⟩ ≤ l.get ⟨j, hj⟩) ∧
    (∀ j (hj : j < l.length), j < k → l.get ⟨k, hk⟩ < l.get ⟨j, hj⟩)

/-! ## `GaussianClassifier.classify_spectrum` (streaming path) -/
/-- The per-class Gaussian log-posterior score of `classify_spectrum`:
`log(cl.class_prob) - 0.5*cl.stats.log_det_cov
 - 0.5*dot(transpose(delta), dot(cl.stats.inv_cov, delta))`. -/
def gscore (rlog : ℚ → ℚ) {B : Nat} (cl : TrainingClass B) (x : Fin B → ℚ) : ℚ :=
  rlog cl.class_prob - 0.5 * cl.stats.log_det_cov
    - 0.5 * quad_stream cl.stats.inv_cov (fun i => x i - cl.stats.mean i)

/-- `GaussianClassifier.classify_spectrum`.  The loop keeps
`(max_prob, max_class)` and replaces them on `prob[0,0] > max_prob`; the
`first` flag makes the first class's score the initial maximum (the `-1e11`
and `-1` sentinels survive only when `self.classes` is empty, whence the
`[]` branch). -/
def gaussian_classify_spectrum (rlog : ℚ → ℚ) {B : Nat}
    (c : GaussianClassifier B) (x : Fin B → ℚ) : Int :=
  match c.classes.map (fun cl => (cl.index, gscore rlog cl x)) with
  | [] => -1
  | p :: rest => (scan_sel (fun v b => decide (b < v)) rest p).1

/-! ## `MahalanobisDistanceClassifier.classify_spectrum` (streaming path) -/
/-- The per-class squared Mahalanobis distance of the streaming path:
`dot(transpose(delta), dot(self.background.inv_cov, delta))` — note the
single shared background inverse covariance. -/
def mahalanobis_d2 {B : Nat} (mc : MahalanobisDistanceClassifier B)
    (cl : TrainingClass B) (x : Fin B → ℚ) : ℚ :=
  quad_stream mc.background.inv_cov (fun i => x i - cl.stats.mean i)

/-- `MahalanobisDistanceClassifier.classify_spectrum`: same scan, but the
best is replaced on `d2 < d2_min` (arg-min), the `first` flag again seeding
with the first class and `-1` surviving only for an empty class list. -/
def mahalanobis_classify_spectrum {B : Nat} (mc : MahalanobisDistanceClassifier B)
    (x : Fin B → ℚ) : Int :=
  match mc.classes.map (fun cl => (cl.index, mahalanobis_d2 mc cl x)) with
  | [] => -1
  | p :: rest => (scan_sel (fun v b => decide (v < b)) rest p).1

/-! ## `np.argmax` / `np.argmin` along one row

`numpy` returns the first occurrence of the extremum, which is the same
first-winner scan. -/
/-- `np.argmax` of one row of scores (first index attaining the maximum;
`numpy` raises on an empty row, callers below handle `[]` themselves). -/
def np_argmax (l : List ℚ) : Nat :=
  match l.enum with
  | [] => 0
  | p :: rest => (scan_sel (fun v b => decide (b < v)) rest p).1

/-- `np.argmin` of one row of scores (first index attaining the minimum). -/
def np_argmin (l : List ℚ) : Nat :=
  match l.enum with
  | [] => 0
  | p :: rest => (scan_sel (fun v b => decide (v < b)) rest p).1

/-! ## `Classifier.classify_image` (default streaming path)

The external `ImageIterator` yields every pixel `(spectrum, row, col)`
exactly once and reports `get_num_elements() = M*N`; it is modelled by the
explicit pixel list below.  The loop writes
`class_map[it.row, it.col] = self.classify_spectrum(spectrum)` and then
evaluates `i % inc` with `inc = N / 100` (Python 2 integer division); when
`inc = 0` — i.e. fewer than 100 pixels — the first executed iteration raises
`ZeroDivisionError`, so the call fails unless the pixel list is empty. -/
def image_pixels {B : Nat} (M N : Nat) (img : Fin M → Fin N → Fin B → ℚ) :
    List ((Fin M × Fin N) × (Fin B → ℚ)) :=
  ((List.finRange M).map
    (fun r => (List.finRange N).map (fun c => ((r, c), img r c)))).flatten

def stream_loop {B M N : Nat} (classify : (Fin B → ℚ) → Int) (inc : Nat) :
    List ((Fin M × Fin N) × (Fin B → ℚ)) → (Fin M → Fin N → Int) →
    Option (Fin M → Fin N → Int)
  | [], acc => some acc
  | px :: rest, acc =>
    -- `i % inc` raises `ZeroDivisionError` when `inc = 0`
    if inc = 0 then none
    else stream_loop classify inc rest
      (fun r c => if r = px.1.1 ∧ c = px.1.2 then classify px.2 else acc r c)

/-- `Classifier.classify_image`: the `class_map = zeros(image.shape[:2])`
initialisation followed by the per-pixel loop. -/
def Classifier.classify_image {B : Nat} (classify : (Fin B → ℚ) → Int)
    (M N : Nat) (img : Fin M → Fin N → Fin B → ℚ) :
    Option (Fin M → Fin N → Int) :=
  stream_loop classify ((image_pixels M N img).length / 100)
    (image_pixels M N img) (fun _ _ => 0)

/-! ## `GaussianClassifier.classify_image` (batched path) -/
/-- The batched per-pixel Gaussian score:
`scores[:,i] = -0.5*np.einsum('ij,ij->i', Y, delta) + scalar` with
`scalar = log(class_prob) - 0.5*log_det_cov` and `Y = delta.dot(inv_cov)`. -/
def gscore_batched (rlog : ℚ → ℚ) {B : Nat} (cl : TrainingClass B)
    (x : Fin B → ℚ) : ℚ :=
  -0.5 * quad_batched cl.stats.inv_cov (fun i => x i - cl.stats.mean i)
    + (rlog cl.class_prob - 0.5 * cl.stats.log_det_cov)

/-- The batched whole-image path of `GaussianClassifier.classify_image`
(`cache_class_scores` true): per-class whole-image scores, then
`inds[np.argmax(scores, axis=-1)]` reshaped to `M×N`.  `np.argmax` raises
on an empty class axis as soon as the image has a pixel, whence `none`. -/
def gaussian_classify_image_cached (rlog : ℚ → ℚ) {B : Nat}
    (c : GaussianClassifier B) (M N : Nat) (img : Fin M → Fin N → Fin B → ℚ) :
    Option (Fin M → Fin N → Int) :=
  if c.classes.isEmpty ∧ 0 < M * N then none
  else some (fun r cc =>
    (c.classes.map (fun cl => cl.index)).getD
      (np_argmax (c.classes.map (fun cl => gscore_batched rlog cl (img r cc)))) 0)

/-- `GaussianClassifier.classify_image`: the batched path when
`cache_class_scores` is set, otherwise the inherited streaming path. -/
def gaussian_classify_image (rlog : ℚ → ℚ) {B : Nat} (c : GaussianClassifier B)
    (cache_class_scores : Bool) (M N : Nat) (img : Fin M → Fin N → Fin B → ℚ) :
    Option (Fin M → Fin N → Int) :=
  if cache_class_scores then gaussian_classify_image_cached rlog c M N img
  else Classifier.classify_image (gaussian_classify_spectrum rlog c) M N img

/-! ## `MahalanobisDistanceClassifier.classify_image` (batched path) -/
/-- Modelled from the spec: the background-dissimilarity (RX anomaly)
detector from the external `detectors` module (not part of the analysed
source), which for a fixed background statistics record returns the
per-pixel squared Mahalanobis distance to the background mean under the
background covariance. -/
def rx_score {B : Nat} (bg : GaussianStats B) (x : Fin B → ℚ) : ℚ :=
  quad_stream bg.inv_cov (fun i => x i - bg.mean i)

/-- The batched path of `MahalanobisDistanceClassifier.classify_image`: for
each class the background mean is overwritten with the class mean
(`self.background.mean = c.stats.mean`, modelled as a functional record
update) and the RX detector scores the whole image against it; then
`inds[np.argmin(scores, axis=-1)]`.  As in the Gaussian batched path,
`np.argmin` raises on an empty class axis when the image has a pixel. -/
def mahalanobis_classify_image_cached {B : Nat}
    (mc : MahalanobisDistanceClassifier B) (M N : Nat)
    (img : Fin M → Fin N → Fin B → ℚ) : Option (Fin M → Fin N → Int) :=
  if mc.classes.isEmpty ∧ 0 < M * N then none
  else some (fun r cc =>
    (mc.classes.map (fun cl => cl.index)).getD
      (np_argmin (mc.classes.map (fun cl =>
        rx_score { mc.background with mean := cl.stats.mean } (img r cc)))) 0)

/-- `MahalanobisDistanceClassifier.classify_image`: batched when
`cache_class_scores` is set, else the inherited streaming path. -/
def mahalanobis_classify_image {B : Nat} (mc : MahalanobisDistanceClassifier B)
    (cache_class_scores : Bool) (M N : Nat) (img : Fin M → Fin N → Fin B → ℚ) :
    Option (Fin M → Fin N → Int) :=
  if cache_class_scores then mahalanobis_classify_image_cached mc M N img
  else Classifier.classify_image (mahalanobis_classify_spectrum mc) M N img

/-! ## Concrete example data -/
/-- A 1-band statistics record used by the concrete examples. -/
def statsEx : GaussianStats 1 :=
  { mean := fun _ => 0, cov := fun _ _ => 2, inv_cov := fun _ _ => 1
    log_det_cov := 0, nsamples := 3 }

def tcEx : TrainingClass 1 :=
  { index := 7, size := 3, class_prob := 1, stats := statsEx }

def tdEx : TrainingClassSet 1 := { classes := [tcEx] }

def gcEx : GaussianClassifier 1 := { min_samples := 1, classes := [tcEx] }

def mcEx : MahalanobisDistanceClassifier 1 :=
  { min_samples := 1, classes := [tcEx], background := statsEx }

def gcEmpty : GaussianClassifier 1 := { min_samples := 5, classes := [] }

def mcEmpty : MahalanobisDistanceClassifier 1 :=
  { min_samples := 5, classes := [], background := statsEx }

/-- The value `mahalanobis_train id (some 1) tdEx` computes to. -/
def mcTrained : MahalanobisDistanceClassifier 1 :=
  { min_samples := 1, classes := [tcEx]
    background :=
      { mean := fun _ => 0, cov := pooled_cov [tcEx]
        inv_cov := pooled_cov [tcEx], log_det_cov := 0, nsamples := 0 } }

/-- An all-zero 2-band statistics record. -/
def stats2 : GaussianStats 2 :=
  { mean := fun _ => 0, cov := fun _ _ => 0, inv_cov := fun _ _ => 0
    log_det_cov := 0, nsamples := 0 }

def tc5 : TrainingClass 2 := { index := 0, size := 5, class_prob := 1, stats := stats2 }

def tc20 : TrainingClass 2 := { index := 1, size := 20, class_prob := 1, stats := stats2 }

def tc3 : TrainingClass 2 := { index := 2, size := 3, class_prob := 1, stats := stats2 }

/-- Training classes with sample counts `[5, 20, 3]`. -/
def tdThree : TrainingClassSet 2 := { classes := [tc5, tc20, tc3] }

/-- Both quadratic-form evaluation orders agree (exact arithmetic). -/
theorem quad_batched_eq_stream {B : Nat} (A : Fin B → Fin B → ℚ) (d : Fin B → ℚ) :
    quad_batched A d = quad_stream A d := by
  unfold quad_batched quad_stream dotp vecMat matVec
  simp only [Finset.sum_mul, Finset.mul_sum]
  rw [Finset.sum_comm]
  refine Finset.sum_congr rfl fun i _ => Finset.sum_congr rfl fun j _ => ?_
  ring

theorem train_select_eq_filter {B : Nat} (ms : Nat) (l : List (TrainingClass B)) :
    train_select ms l = l.filter (fun cl => decide (ms ≤ cl.size)) := by
  induction l with
  | nil => rfl
  | cons cl rest ih =>
    by_cases h : ms ≤ cl.size <;> simp [train_select, List.filter, h, ih]

theorem train_omitted_eq_filter {B : Nat} (ms : Nat) (l : List (TrainingClass B)) :
    train_omitted ms l
      = (l.filter (fun cl => decide (cl.size < ms))).map (fun cl => (cl.index, cl.size)) := by
  induction l with
  | nil => rfl
  | cons cl rest ih =>
    by_cases h : ms ≤ cl.size
    · have h' : ¬ cl.size < ms := not_lt.mpr h
      simp [train_omitted, List.filter, h, h', ih]
    · have h' : cl.size < ms := not_le.mp h
      simp [train_omitted, List.filter, h, h', ih]

theorem pooled_cov_foldl {B : Nat} (l : List (TrainingClass B))
    (f : Fin B → Fin B → ℚ) (i j : Fin B) :
    (l.foldl
      (fun acc cl => fun i j => acc i j + (cl.stats.nsamples : ℚ) * cl.stats.cov i j)
      f) i j
      = f i j + (l.map (fun cl => (cl.stats.nsamples : ℚ) * cl.stats.cov i j)).sum := by
  induction l generalizing f with
  | nil => simp
  | cons cl rest ih =>
    simp only [List.foldl_cons, List.map_cons, List.sum_cons]
    rw [ih]
    ring

theorem pooled_cov_eq_sum {B : Nat} (l : List (TrainingClass B)) (i j : Fin B) :
    pooled_cov l i j = (l.map (fun cl => (cl.stats.nsamples : ℚ) * cl.stats.cov i j)).sum := by
  unfold pooled_cov
  rw [pooled_cov_foldl]
  simp

theorem scan_sel_go {α : Type} (gt : ℚ → ℚ → Bool) (r : ℚ → ℚ → Prop)
    (hgt : ∀ v b, gt v b = true ↔ r v b)
    (htr : ∀ a b c, r a b → r b c → r a c)
    (hirr : ∀ a, ¬ r a a)
    (htot : ∀ a b, r a b ∨ a = b ∨ r b a) :
    ∀ (l pre : List (α × ℚ)) (k : Nat) (hk : k < pre.length),
      SelSpec r pre k →
      ∃ (k' : Nat) (hk' : k' < (pre ++ l).length),
        scan_sel gt l (pre.get ⟨k, hk⟩) = (pre ++ l).get ⟨k', hk'⟩ ∧
        SelSpec r (pre ++ l) k' := by
  intro l
  induction l with
  | nil =>
    intro pre k hk hsel
    exact ⟨k, by simpa using hk, by simp [scan_sel], by simpa using hsel⟩
  | cons p l ih =>
    intro pre k hk hsel
    obtain ⟨_, hmax, hstr⟩ := hsel
    have hE : pre ++ p :: l = (pre ++ [p]) ++ l := by simp
    rw [hE]
    have hlen' : (pre ++ [p]).length = pre.length + 1 := by simp
    -- facts about the gets of `pre ++ [p]`
    have hgetL : ∀ (j : Nat) (hj : j < pre.length),
        (pre ++ [p]).get ⟨j, by omega⟩ = pre.get ⟨j, hj⟩ := by
      intro j hj
      simp only [List.get_eq_getElem]
      exact List.getElem_append_left hj
    have hgetR : (pre ++ [p]).get ⟨pre.length, by omega⟩ = p := by
      simp
    by_cases hb : gt p.2 (pre.get ⟨k, hk⟩).2 = true
    · -- the new element strictly beats the running best and becomes the best
      have hr : r p.2 (pre.get ⟨k, hk⟩).2 := (hgt _ _).mp hb
      have hsel' : SelSpec r (pre ++ [p]) pre.length := by
        refine ⟨by omega, ?_, ?_⟩
        · intro j hj
          rw [hgetR]
          have hj' : j < pre.length ∨ j = pre.length := by omega
          rcases hj' with hj' | hj'
          · rw [hgetL j hj']
            intro hcon
            exact hmax j hj' (htr _ _ _ hcon hr)
          · subst hj'
            rw [hgetR]
            exact hirr _
        · intro j hj hjlt
          have hj' : j < pre.length := by omega
          rw [hgetR, hgetL j hj']
          rcases Nat.lt_trichotomy j k with hjk | hjk | hjk
          · exact htr _ _ _ hr (hstr j hj' hjk)
          · subst hjk
            exact hr
          · rcases htot p.2 (pre.get ⟨j, hj'⟩).2 with hc | hc | hc
            · exact hc
            · exact absurd (hc ▸ hr) (hmax j hj')
            · exact absurd (htr _ _ _ hc hr) (hmax j hj')
      obtain ⟨k', hk', heq, hsel''⟩ :=
        ih (pre ++ [p]) pre.length (by omega) hsel'
      rw [hgetR] at heq
      have hscan : scan_sel gt (p :: l) (pre.get ⟨k, hk⟩) = scan_sel gt l p := by
        simp only [scan_sel]
        rw [hb]
        simp
      exact ⟨k', hk', hscan.trans heq, hsel''⟩
    · -- the new element does not beat the running best; the best is kept
      have hnr : ¬ r p.2 (pre.get ⟨k, hk⟩).2 := fun hcon => hb ((hgt _ _).mpr hcon)
      have hkk : k < (pre ++ [p]).length := by omega
      have hbest : (pre ++ [p]).get ⟨k, hkk⟩ = pre.get ⟨k, hk⟩ := hgetL k hk
      have hsel' : SelSpec r (pre ++ [p]) k := by
        refine ⟨hkk, ?_, ?_⟩
        · intro j hj
          rw [hbest]
          have hj' : j < pre.length ∨ j = pre.length := by omega
          rcases hj' with hj' | hj'
          · rw [hgetL j hj']
            exact hmax j hj'
          · subst hj'
            rw [hgetR]
            exact hnr
        · intro j hj hjlt
          have hj' : j < pre.length := by omega
          rw [hbest, hgetL j hj']
          exact hstr j hj' hjlt
      obtain ⟨k', hk', heq, hsel''⟩ := ih (pre ++ [p]) k hkk hsel'
      rw [hbest] at heq
      have hbf : gt p.2 (pre.get ⟨k, hk⟩).2 = false := by
        simpa using hb
      have hscan : scan_sel gt (p :: l) (pre.get ⟨k, hk⟩)
          = scan_sel gt l (pre.get ⟨k, hk⟩) := by
        simp only [scan_sel]
        rw [hbf]
        simp
      exact ⟨k', hk', hscan.trans heq, hsel''⟩

/-- The scan applied to a whole non-empty list, the first element seeding the
best (the `first` flag of the source loops). -/
theorem scan_sel_first {α : Type} (gt : ℚ → ℚ → Bool) (r : ℚ → ℚ → Prop)
    (hgt : ∀ v b, gt v b = true ↔ r v b)
    (htr : ∀ a b c, r a b → r b c → r a c)
    (hirr : ∀ a, ¬ r a a)
    (htot : ∀ a b, r a b ∨ a = b ∨ r b a)
    (p : α × ℚ) (l : List (α × ℚ)) :
    ∃ (k : Nat) (hk : k < (p :: l).length),
      scan_sel gt l p = (p :: l).get ⟨k, hk⟩ ∧ SelSpec r (p :: l) k := by
  have h0 : SelSpec r [p] 0 := by
    refine ⟨by simp, ?_, ?_⟩
    · intro j hj
      have hj0 : j = 0 := by
        simp at hj
        omega
      subst hj0
      simpa using hirr p.2
    · intro j hj hjlt
      omega
  simpa using scan_sel_go gt r hgt htr hirr htot l [p] 0 (by simp) h0

theorem isFirstMax_unique {l : List ℚ} {k k' : Nat}
    (h : IsFirstMax l k) (h' : IsFirstMax l k') : k = k' := by
  obtain ⟨hk, hmax, hstr⟩ := h
  obtain ⟨hk', hmax', hstr'⟩ := h'
  rcases Nat.lt_trichotomy k k' with hlt | heq | hgt
  · exact absurd (hmax k' hk') (not_le.mpr (hstr' k hk hlt))
  · exact heq
  · exact absurd (hmax' k hk) (not_le.mpr (hstr k' hk' hgt))

theorem isFirstMin_unique {l : List ℚ} {k k' : Nat}
    (h : IsFirstMin l k) (h' : IsFirstMin l k') : k = k' := by
  obtain ⟨hk, hmin, hstr⟩ := h
  obtain ⟨hk', hmin', hstr'⟩ := h'
  rcases Nat.lt_trichotomy k k' with hlt | heq | hgt
  · exact absurd (hmin k' hk') (not_le.mpr (hstr' k hk hlt))
  · exact heq
  · exact absurd (hmin' k hk) (not_le.mpr (hstr k' hk' hgt))

/-- The `SelSpec` for the greater-than scan is exactly first-max over the
score components. -/
theorem SelSpec.isFirstMax {α : Type} {pl : List (α × ℚ)} {k : Nat}
    (h : SelSpec (fun v b => b < v) pl k) : IsFirstMax (pl.map Prod.snd) k := by
  obtain ⟨hk, hmax, hstr⟩ := h
  refine ⟨by simpa using hk, ?_, ?_⟩
  · intro j hj
    have hj' : j < pl.length := by simpa using hj
    simpa using not_lt.mp (hmax j hj')
  · intro j hj hjlt
    have hj' : j < pl.length := by simpa using hj
    simpa using hstr j hj' hjlt

/-- The `SelSpec` for the less-than scan is exactly first-min over the score
components. -/
theorem SelSpec.isFirstMin {α : Type} {pl : List (α × ℚ)} {k : Nat}
    (h : SelSpec (fun v b => v < b) pl k) : IsFirstMin (pl.map Prod.snd) k := by
  obtain ⟨hk, hmax, hstr⟩ := h
  refine ⟨by simpa using hk, ?_, ?_⟩
  · intro j hj
    have hj' : j < pl.length := by simpa using hj
    simpa using not_lt.mp (hmax j hj')
  · intro j hj hjlt
    have hj' : j < pl.length := by simpa using hj
    simpa using hstr j hj' hjlt

/-- The greater-than scan over a non-empty pair list selects the first pair
with maximal score. -/
theorem scan_sel_gt_spec {α : Type} (p : α × ℚ) (l : List (α × ℚ)) :
    ∃ (k : Nat) (hk : k < (p :: l).length),
      scan_sel (fun v b => decide (b < v)) l p = (p :: l).get ⟨k, hk⟩ ∧
      IsFirstMax ((p :: l).map Prod.snd) k := by
  obtain ⟨k, hk, heq, hsel⟩ :=
    scan_sel_first (fun v b => decide (b < v)) (fun v b => b < v)
      (by intro v b; simp)
      (by intro a b c hab hbc; exact lt_trans hbc hab)
      (by intro a; exact lt_irrefl a)
      (by intro a b; rcases lt_trichotomy b a with h | h | h
          · exact Or.inl h
          · exact Or.inr (Or.inl h.symm)
          · exact Or.inr (Or.inr h))
      p l
  exact ⟨k, hk, heq, hsel.isFirstMax⟩

/-- The less-than scan over a non-empty pair list selects the first pair with
minimal score. -/
theorem scan_sel_lt_spec {α : Type} (p : α × ℚ) (l : List (α × ℚ)) :
    ∃ (k : Nat) (hk : k < (p :: l).length),
      scan_sel (fun v b => decide (v < b)) l p = (p :: l).get ⟨k, hk⟩ ∧
      IsFirstMin ((p :: l).map Prod.snd) k := by
  obtain ⟨k, hk, heq, hsel⟩ :=
    scan_sel_first (fun v b => decide (v < b)) (fun v b => v < b)
      (by intro v b; simp)
      (by intro a b c hab hbc; exact lt_trans hab hbc)
      (by intro a; exact lt_irrefl a)
      (by intro a b; rcases lt_trichotomy a b with h | h | h
          · exact Or.inl h
          · exact Or.inr (Or.inl h)
          · exact Or.inr (Or.inr h))
      p l
  exact ⟨k, hk, heq, hsel.isFirstMin⟩

theorem np_argmax_spec (l : List ℚ) (h : l ≠ []) : IsFirstMax l (np_argmax l) := by
  cases henum : l.enum with
  | nil =>
    exfalso
    have : l.enum.length = 0 := by rw [henum]; rfl
    rw [List.enum_length] at this
    exact h (List.length_eq_zero.mp this)
  | cons p rest =>
    obtain ⟨k, hk, heq, hmax⟩ := scan_sel_gt_spec p rest
    have hres : np_argmax l = ((p :: rest).get ⟨k, hk⟩).1 := by
      simp only [np_argmax, henum, heq]
    have hk2 : k < l.length := by
      have h1 : (p :: rest).length = l.length := by
        rw [← henum, List.enum_length]
      omega
    have hfst : ((p :: rest).get ⟨k, hk⟩).1 = k := by
      have h2 : (p :: rest)[k]? = some ((p :: rest).get ⟨k, hk⟩) := by
        simp
      generalize hq : (p :: rest).get ⟨k, hk⟩ = q at h2 ⊢
      rw [← henum] at h2
      have h3 : l.enum[k]? = some (k, l.get ⟨k, hk2⟩) := by
        simp [List.getElem?_eq_getElem, List.getElem_enum]
      rw [h2] at h3
      rw [Option.some_inj.mp h3]
    have hsnd : (p :: rest).map Prod.snd = l := by
      rw [← henum]
      exact List.enum_map_snd l
    rw [hres, hfst]
    rwa [hsnd] at hmax

theorem np_argmin_spec (l : List ℚ) (h : l ≠ []) : IsFirstMin l (np_argmin l) := by
  cases henum : l.enum with
  | nil =>
    exfalso
    have : l.enum.length = 0 := by rw [henum]; rfl
    rw [List.enum_length] at this
    exact h (List.length_eq_zero.mp this)
  | cons p rest =>
    obtain ⟨k, hk, heq, hmin⟩ := scan_sel_lt_spec p rest
    have hres : np_argmin l = ((p :: rest).get ⟨k, hk⟩).1 := by
      simp only [np_argmin, henum, heq]
    have hk2 : k < l.length := by
      have h1 : (p :: rest).length = l.length := by
        rw [← henum, List.enum_length]
      omega
    have hfst : ((p :: rest).get ⟨k, hk⟩).1 = k := by
      have h2 : (p :: rest)[k]? = some ((p :: rest).get ⟨k, hk⟩) := by
        simp
      generalize hq : (p :: rest).get ⟨k, hk⟩ = q at h2 ⊢
      rw [← henum] at h2
      have h3 : l.enum[k]? = some (k, l.get ⟨k, hk2⟩) := by
        simp [List.getElem?_eq_getElem, List.getElem_enum]
      rw [h2] at h3
      rw [Option.some_inj.mp h3]
    have hsnd : (p :: rest).map Prod.snd = l := by
      rw [← henum]
      exact List.enum_map_snd l
    rw [hres, hfst]
    rwa [hsnd] at hmin

/-- Scan over index/score pairs built from a non-empty class list: the result
is the label of the first class with maximal score. -/
theorem scan_sel_map_gt {β : Type} (idx : β → Int) (score : β → ℚ)
    (b0 : β) (bl : List β) :
    ∃ (k : Nat) (hk : k < (b0 :: bl).length),
      (scan_sel (fun v b => decide (b < v))
          (bl.map (fun cl => (idx cl, score cl))) (idx b0, score b0)).1
        = idx ((b0 :: bl).get ⟨k, hk⟩) ∧
      IsFirstMax ((b0 :: bl).map score) k := by
  obtain ⟨k, hk, heq, hmax⟩ :=
    scan_sel_gt_spec (idx b0, score b0) (bl.map (fun cl => (idx cl, score cl)))
  have hlen : k < (b0 :: bl).length := by simpa using hk
  refine ⟨k, hlen, ?_, ?_⟩
  · rw [heq]
    show (((b0 :: bl).map (fun cl => (idx cl, score cl))).get
        ⟨k, by simpa using hk⟩).1 = idx ((b0 :: bl).get ⟨k, hlen⟩)
    rcases k with _ | j
    · simp
    · simp [List.getElem_map]
  · have hsnd : ((idx b0, score b0) :: bl.map (fun cl => (idx cl, score cl))).map Prod.snd
        = (b0 :: bl).map score := by
      simp [List.map_map]
    rwa [hsnd] at hmax

/-- Scan over index/score pairs built from a non-empty class list: the result
is the label of the first class with minimal score. -/
theorem scan_sel_map_lt {β : Type} (idx : β → Int) (score : β → ℚ)
    (b0 : β) (bl : List β) :
    ∃ (k : Nat) (hk : k < (b0 :: bl).length),
      (scan_sel (fun v b => decide (v < b))
          (bl.map (fun cl => (idx cl, score cl))) (idx b0, score b0)).1
        = idx ((b0 :: bl).get ⟨k, hk⟩) ∧
      IsFirstMin ((b0 :: bl).map score) k := by
  obtain ⟨k, hk, heq, hmin⟩ :=
    scan_sel_lt_spec (idx b0, score b0) (bl.map (fun cl => (idx cl, score cl)))
  have hlen : k < (b0 :: bl).length := by simpa using hk
  refine ⟨k, hlen, ?_, ?_⟩
  · rw [heq]
    show (((b0 :: bl).map (fun cl => (idx cl, score cl))).get
        ⟨k, by simpa using hk⟩).1 = idx ((b0 :: bl).get ⟨k, hlen⟩)
    rcases k with _ | j
    · simp
    · simp [List.getElem_map]
  · have hsnd : ((idx b0, score b0) :: bl.map (fun cl => (idx cl, score cl))).map Prod.snd
        = (b0 :: bl).map score := by
      simp [List.map_map]
    rwa [hsnd] at hmin

/-- `GaussianClassifier.classify_spectrum` returns the label of the first
class attaining the maximal Gaussian score. -/
theorem gaussian_classify_spectrum_char (rlog : ℚ → ℚ) {B : Nat}
    (c : GaussianClassifier B) (x : Fin B → ℚ) (h : c.classes ≠ []) :
    ∃ (k : Nat) (hk : k < c.classes.length),
      gaussian_classify_spectrum rlog c x = (c.classes.get ⟨k, hk⟩).index ∧
      IsFirstMax (c.classes.map (fun cl => gscore rlog cl x)) k := by
  cases hcl : c.classes with
  | nil => exact absurd hcl h
  | cons cl0 tl =>
    obtain ⟨k, hk, heq, hmax⟩ :=
      scan_sel_map_gt TrainingClass.index (fun cl => gscore rlog cl x) cl0 tl
    refine ⟨k, hk, ?_, hmax⟩
    have hcomp : gaussian_classify_spectrum rlog c x
        = (scan_sel (fun v b => decide (b < v))
            (tl.map (fun cl => (cl.index, gscore rlog cl x)))
            (cl0.index, gscore rlog cl0 x)).1 := by
      simp only [gaussian_classify_spectrum, hcl, List.map_cons]
    exact hcomp.trans heq

/-- `MahalanobisDistanceClassifier.classify_spectrum` returns the label of
the first class attaining the minimal squared Mahalanobis distance. -/
theorem mahalanobis_classify_spectrum_char {B : Nat}
    (mc : MahalanobisDistanceClassifier B) (x : Fin B → ℚ) (h : mc.classes ≠ []) :
    ∃ (k : Nat) (hk : k < mc.classes.length),
      mahalanobis_classify_spectrum mc x = (mc.classes.get ⟨k, hk⟩).index ∧
      IsFirstMin (mc.classes.map (fun cl => mahalanobis_d2 mc cl x)) k := by
  cases hcl : mc.classes with
  | nil => exact absurd hcl h
  | cons cl0 tl =>
    obtain ⟨k, hk, heq, hmin⟩ :=
      scan_sel_map_lt TrainingClass.index (fun cl => mahalanobis_d2 mc cl x) cl0 tl
    refine ⟨k, hk, ?_, hmin⟩
    have hcomp : mahalanobis_classify_spectrum mc x
        = (scan_sel (fun v b => decide (v < b))
            (tl.map (fun cl => (cl.index, mahalanobis_d2 mc cl x)))
            (cl0.index, mahalanobis_d2 mc cl0 x)).1 := by
      simp only [mahalanobis_classify_spectrum, hcl, List.map_cons]
    exact hcomp.trans heq

theorem image_pixels_length {B : Nat} (M N : Nat) (img : Fin M → Fin N → Fin B → ℚ) :
    (image_pixels M N img).length = M * N := by
  unfold image_pixels
  rw [List.length_flatten]
  have : ((List.finRange M).map
      (fun r => (List.finRange N).map (fun c => ((r, c), img r c)))).map List.length
      = List.replicate M N := by
    rw [List.map_map]
    have : (List.length ∘ fun r => (List.finRange N).map (fun c => ((r, c), img r c)))
        = fun _ => N := by
      funext r
      simp
    rw [this]
    simp [List.map_const']
  rw [this, List.sum_replicate, smul_eq_mul]

theorem image_pixels_mem {B : Nat} (M N : Nat) (img : Fin M → Fin N → Fin B → ℚ)
    (r : Fin M) (c : Fin N) : ((r, c), img r c) ∈ image_pixels M N img := by
  unfold image_pixels
  refine List.mem_flatten.mpr
    ⟨(List.finRange N).map (fun c => ((r, c), img r c)), ?_, ?_⟩
  · exact List.mem_map.mpr ⟨r, List.mem_finRange r, rfl⟩
  · exact List.mem_map.mpr ⟨c, List.mem_finRange c, rfl⟩

theorem image_pixels_shape {B : Nat} (M N : Nat) (img : Fin M → Fin N → Fin B → ℚ) :
    ∀ p ∈ image_pixels M N img, p.2 = img p.1.1 p.1.2 := by
  intro p hp
  unfold image_pixels at hp
  obtain ⟨row, hrow, hmem⟩ := List.mem_flatten.mp hp
  obtain ⟨r, _, hr⟩ := List.mem_map.mp hrow
  subst hr
  obtain ⟨c, _, hc⟩ := List.mem_map.mp hmem
  subst hc
  rfl

theorem stream_loop_zero {B M N : Nat} (classify : (Fin B → ℚ) → Int)
    (l : List ((Fin M × Fin N) × (Fin B → ℚ))) (acc : Fin M → Fin N → Int)
    (h : l ≠ []) : stream_loop classify 0 l acc = none := by
  cases l with
  | nil => exact absurd rfl h
  | cons p rest => simp [stream_loop]

theorem stream_loop_some {B M N : Nat} (classify : (Fin B → ℚ) → Int)
    {inc : Nat} (hinc : inc ≠ 0) (F : Fin M → Fin N → Fin B → ℚ) :
    ∀ (l : List ((Fin M × Fin N) × (Fin B → ℚ))) (acc : Fin M → Fin N → Int),
      (∀ p ∈ l, p.2 = F p.1.1 p.1.2) →
      ∃ m, stream_loop classify inc l acc = some m ∧
        ∀ (r : Fin M) (c : Fin N),
          ((∃ s, ((r, c), s) ∈ l) → m r c = classify (F r c)) ∧
          ((∀ s, ((r, c), s) ∉ l) → m r c = acc r c) := by
  intro l
  induction l with
  | nil =>
    intro acc _
    refine ⟨acc, rfl, ?_⟩
    intro r c
    constructor
    · rintro ⟨s, hs⟩
      simp at hs
    · intro _
      rfl
  | cons p rest ih =>
    intro acc hform
    have hform' : ∀ q ∈ rest, q.2 = F q.1.1 q.1.2 :=
      fun q hq => hform q (List.mem_cons_of_mem p hq)
    obtain ⟨m, hm, hprop⟩ := ih
      (fun r c => if r = p.1.1 ∧ c = p.1.2 then classify p.2 else acc r c) hform'
    refine ⟨m, ?_, ?_⟩
    · simp only [stream_loop, if_neg hinc]
      exact hm
    · intro r c
      constructor
      · rintro ⟨s, hs⟩
        rcases List.mem_cons.mp hs with hs | hs
        · -- the head pixel is (r, c)
          by_cases hrest : ∃ s', ((r, c), s') ∈ rest
          · exact (hprop r c).1 hrest
          · have hnone : ∀ s', ((r, c), s') ∉ rest := by
              push_neg at hrest
              exact hrest
            have hacc := (hprop r c).2 hnone
            have hp1 : p.1 = (r, c) := by
              rw [← hs]
            rw [hacc, if_pos (by rw [hp1]; exact ⟨rfl, rfl⟩)]
            have hval : p.2 = F r c := by
              have := hform p (List.mem_cons_self p rest)
              rw [this, hp1]
            rw [hval]
        · exact (hprop r c).1 ⟨s, hs⟩
      · intro hnot
        have hrest : ∀ s', ((r, c), s') ∉ rest := by
          intro s' hs'
          exact hnot s' (List.mem_cons_of_mem p hs')
        have hacc := (hprop r c).2 hrest
        rw [hacc]
        have hcond : ¬ (r = p.1.1 ∧ c = p.1.2) := by
          rintro ⟨hr, hc⟩
          have hp1 : p = ((r, c), p.2) := by
            have : p.1 = (r, c) := by
              rw [hr, hc]
            rw [← this]
          exact hnot p.2 (hp1 ▸ List.mem_cons_self p rest)
        rw [if_neg hcond]

/-- With at least 100 pixels the progress increment is positive and the
streaming path classifies every pixel. -/
theorem classify_image_stream_some {B : Nat} (classify : (Fin B → ℚ) → Int)
    (M N : Nat) (img : Fin M → Fin N → Fin B → ℚ) (h : 100 ≤ M * N) :
    ∃ m, Classifier.classify_image classify M N img = some m ∧
      ∀ (r : Fin M) (c : Fin N), m r c = classify (img r c) := by
  have hlen := image_pixels_length M N img
  have hinc : (image_pixels M N img).length / 100 ≠ 0 := by
    rw [hlen]
    have : 1 ≤ M * N / 100 := (Nat.one_le_div_iff (by omega)).mpr h
    omega
  obtain ⟨m, hm, hprop⟩ :=
    stream_loop_some classify hinc img (image_pixels M N img) (fun _ _ => 0)
      (image_pixels_shape M N img)
  refine ⟨m, hm, ?_⟩
  intro r c
  exact (hprop r c).1 ⟨img r c, image_pixels_mem M N img r c⟩

/-- With at least one but fewer than 100 pixels the increment `N / 100` is
zero and the streaming path fails (`ZeroDivisionError`). -/
theorem classify_image_stream_none {B : Nat} (classify : (Fin B → ℚ) → Int)
    (M N : Nat) (img : Fin M → Fin N → Fin B → ℚ)
    (h0 : 0 < M * N) (h1 : M * N < 100) :
    Classifier.classify_image classify M N img = none := by
  have hlen := image_pixels_length M N img
  have hinc : (image_pixels M N img).length / 100 = 0 := by
    rw [hlen]
    exact Nat.div_eq_of_lt h1
  have hne : image_pixels M N img ≠ [] := by
    intro hcon
    have hzero : (image_pixels M N img).length = 0 := by
      rw [hcon]
      rfl
    omega
  rw [Classifier.classify_image, hinc]
  exact stream_loop_zero classify _ _ hne

/-- On an empty image the loop body never runs: the zero increment is never
used and the zero-initialised class map is returned. -/
theorem classify_image_stream_empty {B : Nat} (classify : (Fin B → ℚ) → Int)
    (M N : Nat) (img : Fin M → Fin N → Fin B → ℚ) (h : M * N = 0) :
    Classifier.classify_image classify M N img = some (fun _ _ => 0) := by
  have hlen := image_pixels_length M N img
  have hnil : image_pixels M N img = [] := by
    apply List.length_eq_zero.mp
    omega
  rw [Classifier.classify_image, hnil]
  rfl

theorem gscore_batched_eq (rlog : ℚ → ℚ) {B : Nat} (cl : TrainingClass B)
    (x : Fin B → ℚ) : gscore_batched rlog cl x = gscore rlog cl x := by
  unfold gscore_batched gscore
  rw [quad_batched_eq_stream]
  ring

/-! ## Pixelwise agreement of the batched and streaming paths -/
theorem getD_map_index {B : Nat} (cls : List (TrainingClass B)) (k : Nat)
    (hk : k < cls.length) :
    (cls.map (fun cl => cl.index)).getD k 0 = (cls.get ⟨k, hk⟩).index := by
  have hk' : k < (cls.map (fun cl => cl.index)).length := by simpa using hk
  rw [List.getD_eq_getElem?_getD, List.getElem?_eq_getElem hk']
  simp [List.getElem_map]

/-- One pixel of the Gaussian batched path agrees with
`classify_spectrum`: `np.argmax` picks the first maximal batched score,
the scan picks the first maximal streaming score, and the scores agree. -/
theorem gaussian_pixel_eq (rlog : ℚ → ℚ) {B : Nat} (c : GaussianClassifier B)
    (x : Fin B → ℚ) (h : c.classes ≠ []) :
    (c.classes.map (fun cl => cl.index)).getD
        (np_argmax (c.classes.map (fun cl => gscore_batched rlog cl x))) 0
      = gaussian_classify_spectrum rlog c x := by
  have hscores : c.classes.map (fun cl => gscore_batched rlog cl x)
      = c.classes.map (fun cl => gscore rlog cl x) := by
    simp [gscore_batched_eq]
  rw [hscores]
  obtain ⟨k, hk, heq, hmax⟩ := gaussian_classify_spectrum_char rlog c x h
  have hne : c.classes.map (fun cl => gscore rlog cl x) ≠ [] := by
    simpa using h
  have hargmax := np_argmax_spec _ hne
  have hkk : np_argmax (c.classes.map (fun cl => gscore rlog cl x)) = k :=
    isFirstMax_unique hargmax hmax
  rw [hkk, getD_map_index c.classes k hk, heq]

/-- One pixel of the Mahalanobis batched path agrees with
`classify_spectrum`: the RX score of the class-mean-patched background is
exactly the streaming squared distance, and `np.argmin` and the scan both
pick its first minimum. -/
theorem mahalanobis_pixel_eq {B : Nat} (mc : MahalanobisDistanceClassifier B)
    (x : Fin B → ℚ) (h : mc.classes ≠ []) :
    (mc.classes.map (fun cl => cl.index)).getD
        (np_argmin (mc.classes.map (fun cl =>
          rx_score { mc.background with mean := cl.stats.mean } x))) 0
      = mahalanobis_classify_spectrum mc x := by
  have hscores : mc.classes.map (fun cl =>
        rx_score { mc.background with mean := cl.stats.mean } x)
      = mc.classes.map (fun cl => mahalanobis_d2 mc cl x) := by
    simp [rx_score, mahalanobis_d2]
  rw [hscores]
  obtain ⟨k, hk, heq, hmin⟩ := mahalanobis_classify_spectrum_char mc x h
  have hne : mc.classes.map (fun cl => mahalanobis_d2 mc cl x) ≠ [] := by
    simpa using h
  have hargmin := np_argmin_spec _ hne
  have hkk : np_argmin (mc.classes.map (fun cl => mahalanobis_d2 mc cl x)) = k :=
    isFirstMin_unique hargmin hmin
  rw [hkk, getD_map_index mc.classes k hk, heq]

/-- With a non-empty class list the Gaussian streaming result is always one
of the retained labels. -/
theorem gaussian_classify_spectrum_mem (rlog : ℚ → ℚ) {B : Nat}
    (c : GaussianClassifier B) (x : Fin B → ℚ) (h : c.classes ≠ []) :
    gaussian_classify_spectrum rlog c x ∈ c.classes.map (fun cl => cl.index) := by
  obtain ⟨k, hk, heq, _⟩ := gaussian_classify_spectrum_char rlog c x h
  rw [heq]
  exact List.mem_map.mpr ⟨c.classes.get ⟨k, hk⟩, List.get_mem c.classes k hk, rfl⟩

/-- With a non-empty class list the Mahalanobis streaming result is always
one of the retained labels. -/
theorem mahalanobis_classify_spectrum_mem {B : Nat}
    (mc : MahalanobisDistanceClassifier B) (x : Fin B → ℚ) (h : mc.classes ≠ []) :
    mahalanobis_classify_spectrum mc x ∈ mc.classes.map (fun cl => cl.index) := by
  obtain ⟨k, hk, heq, _⟩ := mahalanobis_classify_spectrum_char mc x h
  rw [heq]
  exact List.mem_map.mpr ⟨mc.classes.get ⟨k, hk⟩, List.get_mem mc.classes k hk, rfl⟩

/-- First-max over mapped scores, re-indexed through the underlying list. -/
theorem isFirstMax_map_get {β : Type} {cls : List β} {f : β → ℚ} {k : Nat}
    (h : IsFirstMax (cls.map f) k) :
    ∃ hk : k < cls.length,
      (∀ j (hj : j < cls.length), f (cls.get ⟨j, hj⟩) ≤ f (cls.get ⟨k, hk⟩)) ∧
      (∀ j (hj : j < cls.length), j < k → f (cls.get ⟨j, hj⟩) < f (cls.get ⟨k, hk⟩)) := by
  obtain ⟨hk, hmax, hstr⟩ := h
  have hk2 : k < cls.length := by simpa using hk
  refine ⟨hk2, ?_, ?_⟩
  · intro j hj
    have := hmax j (by simpa using hj)
    simpa [List.getElem_map] using this
  · intro j hj hjk
    have := hstr j (by simpa using hj) hjk
    simpa [List.getElem_map] using this

/-- First-min over mapped scores, re-indexed through the underlying list. -/
theorem isFirstMin_map_get {β : Type} {cls : List β} {f : β → ℚ} {k : Nat}
    (h : IsFirstMin (cls.map f) k) :
    ∃ hk : k < cls.length,
      (∀ j (hj : j < cls.length), f (cls.get ⟨k, hk⟩) ≤ f (cls.get ⟨j, hj⟩)) ∧
      (∀ j (hj : j < cls.length), j < k → f (cls.get ⟨k, hk⟩) < f (cls.get ⟨j, hj⟩)) := by
  obtain ⟨hk, hmin, hstr⟩ := h
  have hk2 : k < cls.length := by simpa using hk
  refine ⟨hk2, ?_, ?_⟩
  · intro j hj
    have := hmin j (by simpa using hj)
    simpa [List.getElem_map] using this
  · intro j hj hjk
    have := hstr j (by simpa using hj) hjk
    simpa [List.getElem_map] using this

/-- Dispatch of `GaussianClassifier.classify_image` with
`cache_class_scores` false: the inherited streaming path. -/
theorem gaussian_classify_image_stream_eq (rlog : ℚ → ℚ) {B : Nat}
    (c : GaussianClassifier B) (M N : Nat) (img : Fin M → Fin N → Fin B → ℚ) :
    gaussian_classify_image rlog c false M N img
      = Classifier.classify_image (gaussian_classify_spectrum rlog c) M N img := rfl

/-- Dispatch of `MahalanobisDistanceClassifier.classify_image` with
`cache_class_scores` false: the inherited streaming path. -/
theorem mahalanobis_classify_image_stream_eq {B : Nat}
    (mc : MahalanobisDistanceClassifier B) (M N : Nat)
    (img : Fin M → Fin N → Fin B → ℚ) :
    mahalanobis_classify_image mc false M N img
      = Classifier.classify_image (mahalanobis_classify_spectrum mc) M N img := rfl

/-! ## Claim theorems -/
/-- C5: `GaussianClassifier.train` retains exactly those classes whose
sample count is at least the resolved `min_samples`, in training-set
iteration order; a dropped class only yields a diagnostic `(index, size)`
report, not an error; with sample counts `[5, 20, 3]` and `min_samples=10`
exactly the 20-sample class is retained. -/
theorem gaussian_train_retains_threshold :
    (∀ (B : Nat) (min_samples : Option Nat) (td : TrainingClassSet B),
      (gaussian_train min_samples td).classes
        = td.classes.filter
            (fun cl => decide ((gaussian_train min_samples td).min_samples ≤ cl.size)) ∧
      gaussian_train_diagnostics min_samples td
        = (td.classes.filter
            (fun cl => decide (cl.size < (gaussian_train min_samples td).min_samples))).map
            (fun cl => (cl.index, cl.size))) ∧
    (gaussian_train (some 10) tdThree).classes = [tc20] := by
  refine ⟨fun B ms td => ⟨?_, ?_⟩, ?_⟩
  · exact train_select_eq_filter (resolve_min_samples ms B) td.classes
  · exact train_omitted_eq_filter (resolve_min_samples ms B) td.classes
  · rfl

/-- C6: when `min_samples` was not supplied, `train` sets it to the number
of spectral bands `B` of the training data, and the class filter then uses
that resolved threshold. -/
theorem gaussian_train_default_min_samples :
    ∀ (B : Nat) (td : TrainingClassSet B),
      (gaussian_train none td).min_samples = B ∧
      (gaussian_train none td).classes
        = td.classes.filter (fun cl => decide (B ≤ cl.size)) := by
  intro B td
  exact ⟨rfl, train_select_eq_filter B td.classes⟩

/-- C7: calling `classify_spectrum` on the abstract base `Classifier` always
fails with the "not implemented" error, for every argument list. -/
theorem classifier_classify_spectrum_not_implemented :
    ∀ (α : Type) (a : α),
      Classifier.classify_spectrum a
        = Except.error
            "Classifier.classify_spectrum must be overridden by a child class." := by
  intro α a
  rfl

/-- C10: if training retained zero classes, both streaming
`classify_spectrum` implementations return the `-1` sentinel (the class
loop never executes) instead of raising, for every input spectrum. -/
theorem classify_spectrum_no_classes :
    ∀ (B : Nat) (rlog : ℚ → ℚ) (c : GaussianClassifier B)
      (mc : MahalanobisDistanceClassifier B) (x y : Fin B → ℚ),
      c.classes = [] → mc.classes = [] →
      gaussian_classify_spectrum rlog c x = -1 ∧
      mahalanobis_classify_spectrum mc y = -1 := by
  intro B rlog c mc x y hc hmc
  constructor
  · simp [gaussian_classify_spectrum, hc]
  · simp [mahalanobis_classify_spectrum, hmc]

theorem classify_spectrum_no_classes_witness :
    gcEmpty.classes = [] ∧ mcEmpty.classes = [] ∧
    gaussian_classify_spectrum (fun q => q) gcEmpty (fun _ => 0) = -1 ∧
    mahalanobis_classify_spectrum mcEmpty (fun _ => 0) = -1 := by
  have h := classify_spectrum_no_classes 1 (fun q => q) gcEmpty mcEmpty
    (fun _ => 0) (fun _ => 0) rfl rfl
  exact ⟨rfl, rfl, h.1, h.2⟩

/-- C2: after `MahalanobisDistanceClassifier.train` succeeds, the retained
classes are the Gaussian-trained ones and the background covariance is
entrywise exactly `Σᵢ nᵢ·covᵢ` over them — not divided by the total sample
count. -/
theorem mahalanobis_train_background_cov {B : Nat}
    (matinv : (Fin B → Fin B → ℚ) → (Fin B → Fin B → ℚ))
    (min_samples : Option Nat) (td : TrainingClassSet B)
    (mc : MahalanobisDistanceClassifier B)
    (h : mahalanobis_train matinv min_samples td = some mc) :
    mc.classes = (gaussian_train min_samples td).classes ∧
    ∀ i j, mc.background.cov i j
      = ((gaussian_train min_samples td).classes.map
          (fun cl => (cl.stats.nsamples : ℚ) * cl.stats.cov i j)).sum := by
  rw [mahalanobis_train] at h
  cases hcls : (gaussian_train min_samples td).classes with
  | nil =>
    rw [hcls] at h
    simp at h
  | cons cl0 tl =>
    rw [hcls] at h
    simp only [Option.some_inj] at h
    subst h
    refine ⟨rfl, ?_⟩
    intro i j
    exact pooled_cov_eq_sum (cl0 :: tl) i j

theorem mahalanobis_train_background_cov_witness :
    mahalanobis_train (fun A => A) (some 1) tdEx = some mcTrained ∧
    mcTrained.background.cov 0 0
      = ((gaussian_train (some 1) tdEx).classes.map
          (fun cl => (cl.stats.nsamples : ℚ) * cl.stats.cov 0 0)).sum := by
  have H : mahalanobis_train (fun A => A) (some 1) tdEx = some mcTrained := rfl
  exact ⟨H, (mahalanobis_train_background_cov (fun A => A) (some 1) tdEx
    mcTrained H).2 0 0⟩

/-- C9 (amended): the streaming `Classifier.classify_image` computes the
progress increment `N / 100` by integer division, so for every image with
at least one and fewer than 100 pixels the increment is zero and the call
fails with a division-by-zero error; an image with zero pixels never
executes the loop body, so the modulo is well-defined exactly when the
image is empty or has at least 100 pixels. -/
theorem classifier_classify_image_div_zero {B : Nat}
    (classify : (Fin B → ℚ) → Int) (M N : Nat)
    (img : Fin M → Fin N → Fin B → ℚ)
    (h0 : 0 < M * N) (h1 : M * N < 100) :
    Classifier.classify_image classify M N img = none ∧ M * N / 100 = 0 :=
  ⟨classify_image_stream_none classify M N img h0 h1, Nat.div_eq_of_lt h1⟩

theorem classifier_classify_image_div_zero_witness :
    0 < 1 * 5 ∧ 1 * 5 < 100 ∧
    Classifier.classify_image (fun _ : Fin 1 → ℚ => (-1 : Int)) 1 5
      (fun _ _ _ => 0) = none ∧ 1 * 5 / 100 = 0 := by
  have h := classifier_classify_image_div_zero
    (fun _ : Fin 1 → ℚ => (-1 : Int)) 1 5 (fun _ _ _ => 0)
    (by decide) (by decide)
  exact ⟨by decide, by decide, h.1, h.2⟩

/-- C9 counterexample to the claim as stated: a `0×5` image has fewer than
100 pixels, yet the loop body never runs, so the call succeeds instead of
failing with a division-by-zero error. -/
theorem classifier_classify_image_empty_image_ok :
    (Classifier.classify_image (fun _ : Fin 1 → ℚ => (-1 : Int)) 0 5
      (fun _ _ _ => 0)).isSome = true ∧ 0 * 5 < 100 := by
  constructor
  · rw [classify_image_stream_empty (fun _ : Fin 1 → ℚ => (-1 : Int)) 0 5
      (fun _ _ _ => 0) (by decide)]
    rfl
  · decide

/-- C3: on a non-empty class list, `GaussianClassifier.classify_spectrum`
scores every class by
`log(class_prob) - 0.5*log_det_cov - 0.5*(x-mean)ᵗ·inv_cov·(x-mean)` and
returns the label of the class with the maximum score, ties resolved to the
first class in `classes` order (strictly-greater scan seeded with the first
class's score). -/
theorem gaussian_classify_spectrum_argmax_first (rlog : ℚ → ℚ) {B : Nat}
    (c : GaussianClassifier B) (x : Fin B → ℚ) (h : c.classes ≠ []) :
    ∃ (k : Nat) (hk : k < c.classes.length),
      gaussian_classify_spectrum rlog c x = (c.classes.get ⟨k, hk⟩).index ∧
      (∀ cl ∈ c.classes, gscore rlog cl x
          = rlog cl.class_prob - 0.5 * cl.stats.log_det_cov
            - 0.5 * quad_stream cl.stats.inv_cov (fun i => x i - cl.stats.mean i)) ∧
      (∀ j (hj : j < c.classes.length),
        gscore rlog (c.classes.get ⟨j, hj⟩) x ≤ gscore rlog (c.classes.get ⟨k, hk⟩) x) ∧
      (∀ j (hj : j < c.classes.length), j < k →
        gscore rlog (c.classes.get ⟨j, hj⟩) x < gscore rlog (c.classes.get ⟨k, hk⟩) x) := by
  obtain ⟨k, hk, heq, hmax⟩ := gaussian_classify_spectrum_char rlog c x h
  obtain ⟨hk2, hle, hlt⟩ := isFirstMax_map_get hmax
  exact ⟨k, hk, heq, fun cl _ => rfl, hle, hlt⟩

theorem gaussian_classify_spectrum_argmax_first_witness :
    gcEx.classes ≠ [] ∧
    gaussian_classify_spectrum (fun q => q) gcEx (fun _ => 0) = 7 := by
  have hne : gcEx.classes ≠ [] := by simp [gcEx]
  obtain ⟨k, hk, heq, _, _, _⟩ :=
    gaussian_classify_spectrum_argmax_first (fun q => q) gcEx (fun _ => 0) hne
  have hlen : gcEx.classes.length = 1 := rfl
  have hk0 : k = 0 := by omega
  subst hk0
  exact ⟨hne, by rw [heq]; rfl⟩

/-- C4: on a non-empty class list,
`MahalanobisDistanceClassifier.classify_spectrum` computes for each class
the squared distance `(x-mean)ᵗ·background.inv_cov·(x-mean)` under the
single shared background inverse covariance and returns the label of the
class with the minimum distance (arg-min — the opposite direction from the
Gaussian classifier's arg-max), ties resolved to the first class in order
via the strict less-than scan. -/
theorem mahalanobis_classify_spectrum_argmin_first {B : Nat}
    (mc : MahalanobisDistanceClassifier B) (x : Fin B → ℚ) (h : mc.classes ≠ []) :
    ∃ (k : Nat) (hk : k < mc.classes.length),
      mahalanobis_classify_spectrum mc x = (mc.classes.get ⟨k, hk⟩).index ∧
      (∀ cl ∈ mc.classes, mahalanobis_d2 mc cl x
          = quad_stream mc.background.inv_cov (fun i => x i - cl.stats.mean i)) ∧
      (∀ j (hj : j < mc.classes.length),
        mahalanobis_d2 mc (mc.classes.get ⟨k, hk⟩) x
          ≤ mahalanobis_d2 mc (mc.classes.get ⟨j, hj⟩) x) ∧
      (∀ j (hj : j < mc.classes.length), j < k →
        mahalanobis_d2 mc (mc.classes.get ⟨k, hk⟩) x
          < mahalanobis_d2 mc (mc.classes.get ⟨j, hj⟩) x) := by
  obtain ⟨k, hk, heq, hmin⟩ := mahalanobis_classify_spectrum_char mc x h
  obtain ⟨hk2, hle, hlt⟩ := isFirstMin_map_get hmin
  exact ⟨k, hk, heq, fun cl _ => rfl, hle, hlt⟩

theorem mahalanobis_classify_spectrum_argmin_first_witness :
    mcEx.classes ≠ [] ∧
    mahalanobis_classify_spectrum mcEx (fun _ => 0) = 7 := by
  have hne : mcEx.classes ≠ [] := by simp [mcEx]
  obtain ⟨k, hk, heq, _, _, _⟩ :=
    mahalanobis_classify_spectrum_argmin_first mcEx (fun _ => 0) hne
  have hlen : mcEx.classes.length = 1 := rfl
  have hk0 : k = 0 := by omega
  subst hk0
  exact ⟨hne, by rw [heq]; rfl⟩

/-- C1 (amended): for classifiers with at least one retained class and for
images that are empty or have at least 100 pixels, the batched
(`cache_class_scores` true) and streaming (`cache_class_scores` false)
whole-image paths return identical class maps, pixel for pixel, for both
`GaussianClassifier` and `MahalanobisDistanceClassifier`; on a 1–99-pixel
image the streaming path instead fails with a division-by-zero error, and
with zero retained classes the batched path fails in `np.argmax`/`argmin`. -/
theorem classify_image_batched_eq_streaming :
    (∀ (B : Nat) (rlog : ℚ → ℚ) (c : GaussianClassifier B) (M N : Nat)
       (img : Fin M → Fin N → Fin B → ℚ),
       c.classes ≠ [] → (M * N = 0 ∨ 100 ≤ M * N) →
       gaussian_classify_image rlog c true M N img
         = gaussian_classify_image rlog c false M N img) ∧
    (∀ (B : Nat) (mc : MahalanobisDistanceClassifier B) (M N : Nat)
       (img : Fin M → Fin N → Fin B → ℚ),
       mc.classes ≠ [] → (M * N = 0 ∨ 100 ≤ M * N) →
       mahalanobis_classify_image mc true M N img
         = mahalanobis_classify_image mc false M N img) := by
  constructor
  · intro B rlog c M N img hne hsize
    have hcond : ¬ ((c.classes.isEmpty : Prop) ∧ 0 < M * N) := by
      rintro ⟨h1, _⟩
      exact hne (List.isEmpty_iff.mp h1)
    have hbatch : gaussian_classify_image rlog c true M N img
        = some (fun r cc => (c.classes.map (fun cl => cl.index)).getD
            (np_argmax (c.classes.map
              (fun cl => gscore_batched rlog cl (img r cc)))) 0) := by
      show gaussian_classify_image_cached rlog c M N img = _
      rw [gaussian_classify_image_cached, if_neg hcond]
    rcases hsize with h0 | h100
    · have hstream : gaussian_classify_image rlog c false M N img
          = some (fun _ _ => 0) := by
        show Classifier.classify_image _ M N img = _
        exact classify_image_stream_empty _ M N img h0
      rw [hbatch, hstream]
      refine congrArg some ?_
      funext r cc
      rcases Nat.mul_eq_zero.mp h0 with hM | hN
      · subst hM
        exact r.elim0
      · subst hN
        exact cc.elim0
    · obtain ⟨m, hm, hprop⟩ := classify_image_stream_some
        (gaussian_classify_spectrum rlog c) M N img h100
      have hstream : gaussian_classify_image rlog c false M N img = some m := by
        show Classifier.classify_image _ M N img = _
        exact hm
      rw [hbatch, hstream]
      refine congrArg some ?_
      funext r cc
      rw [hprop r cc]
      exact gaussian_pixel_eq rlog c (img r cc) hne
  · intro B mc M N img hne hsize
    have hcond : ¬ ((mc.classes.isEmpty : Prop) ∧ 0 < M * N) := by
      rintro ⟨h1, _⟩
      exact hne (List.isEmpty_iff.mp h1)
    have hbatch : mahalanobis_classify_image mc true M N img
        = some (fun r cc => (mc.classes.map (fun cl => cl.index)).getD
            (np_argmin (mc.classes.map (fun cl =>
              rx_score { mc.background with mean := cl.stats.mean }
                (img r cc)))) 0) := by
      show mahalanobis_classify_image_cached mc M N img = _
      rw [mahalanobis_classify_image_cached, if_neg hcond]
    rcases hsize with h0 | h100
    · have hstream : mahalanobis_classify_image mc false M N img
          = some (fun _ _ => 0) := by
        show Classifier.classify_image _ M N img = _
        exact classify_image_stream_empty _ M N img h0
      rw [hbatch, hstream]
      refine congrArg some ?_
      funext r cc
      rcases Nat.mul_eq_zero.mp h0 with hM | hN
      · subst hM
        exact r.elim0
      · subst hN
        exact cc.elim0
    · obtain ⟨m, hm, hprop⟩ := classify_image_stream_some
        (mahalanobis_classify_spectrum mc) M N img h100
      have hstream : mahalanobis_classify_image mc false M N img = some m := by
        show Classifier.classify_image _ M N img = _
        exact hm
      rw [hbatch, hstream]
      refine congrArg some ?_
      funext r cc
      rw [hprop r cc]
      exact mahalanobis_pixel_eq mc (img r cc) hne

theorem classify_image_batched_eq_streaming_witness :
    (gaussian_classify_image (fun q => q) gcEx true 10 10 (fun _ _ _ => 0)
       = gaussian_classify_image (fun q => q) gcEx false 10 10 (fun _ _ _ => 0)) ∧
    (mahalanobis_classify_image mcEx true 10 10 (fun _ _ _ => 0)
       = mahalanobis_classify_image mcEx false 10 10 (fun _ _ _ => 0)) :=
  ⟨classify_image_batched_eq_streaming.1 1 (fun q => q) gcEx 10 10
     (fun _ _ _ => 0) (by simp [gcEx]) (Or.inr (by decide)),
   classify_image_batched_eq_streaming.2 1 mcEx 10 10
     (fun _ _ _ => 0) (by simp [mcEx]) (Or.inr (by decide))⟩

/-- C1 counterexample to the claim as stated: on a 1×1 image the streaming
path fails (`ZeroDivisionError` in the progress arithmetic) while the
batched path returns a class map; with zero retained classes on a 10×10
image the batched path fails (`np.argmax` of an empty sequence) while the
streaming path returns a class map.  In both cases the two paths do not
return equal results. -/
theorem classify_image_batched_streaming_diverge :
    (gaussian_classify_image (fun q => q) gcEx true 1 1 (fun _ _ _ => 0)
      ≠ gaussian_classify_image (fun q => q) gcEx false 1 1 (fun _ _ _ => 0)) ∧
    (gaussian_classify_image (fun q => q) gcEmpty true 10 10 (fun _ _ _ => 0)
      ≠ gaussian_classify_image (fun q => q) gcEmpty false 10 10 (fun _ _ _ => 0)) := by
  constructor
  · have hstream : gaussian_classify_image (fun q => q) gcEx false 1 1
        (fun _ _ _ => 0) = none := by
      show Classifier.classify_image
        (gaussian_classify_spectrum (fun q => q) gcEx) 1 1 (fun _ _ _ => 0) = none
      exact classify_image_stream_none _ 1 1 _ (by decide) (by decide)
    have hcond : ¬ ((gcEx.classes.isEmpty : Prop) ∧ 0 < 1 * 1) := by
      rintro ⟨h1, _⟩
      simp [gcEx] at h1
    have hbatch : (gaussian_classify_image (fun q => q) gcEx true 1 1
        (fun _ _ _ => 0)).isSome = true := by
      show (gaussian_classify_image_cached (fun q => q) gcEx 1 1
        (fun _ _ _ => 0)).isSome = true
      rw [gaussian_classify_image_cached, if_neg hcond]
      rfl
    intro hcon
    rw [hcon, hstream] at hbatch
    simp at hbatch
  · obtain ⟨m, hm, _⟩ := classify_image_stream_some
      (gaussian_classify_spectrum (fun q => q) gcEmpty) 10 10
      (fun _ _ _ => 0) (by decide)
    have hstream : gaussian_classify_image (fun q => q) gcEmpty false 10 10
        (fun _ _ _ => 0) = some m := by
      rw [gaussian_classify_image_stream_eq]
      exact hm
    have hbatch : gaussian_classify_image (fun q => q) gcEmpty true 10 10
        (fun _ _ _ => 0) = none := by
      show gaussian_classify_image_cached (fun q => q) gcEmpty 10 10
        (fun _ _ _ => 0) = none
      rw [gaussian_classify_image_cached, if_pos ⟨rfl, by decide⟩]
    rw [hbatch, hstream]
    simp

/-- C8 (amended): for every trained classifier with at least one retained
class, `classify_image` returns a class map of the image's `(rows, cols)`
shape whose every value is a retained class label — on every image for the
Gaussian and Mahalanobis batched paths, and on images that are empty or
have at least 100 pixels for the default streaming path (on 1–99-pixel
images the streaming path fails with a division-by-zero error instead). -/
theorem classify_image_map_values :
    (∀ (B : Nat) (rlog : ℚ → ℚ) (c : GaussianClassifier B) (cache : Bool)
       (M N : Nat) (img : Fin M → Fin N → Fin B → ℚ),
       c.classes ≠ [] → (cache = false → M * N = 0 ∨ 100 ≤ M * N) →
       ∃ m, gaussian_classify_image rlog c cache M N img = some m ∧
         ∀ (r : Fin M) (cc : Fin N),
           m r cc ∈ c.classes.map (fun cl => cl.index)) ∧
    (∀ (B : Nat) (mc : MahalanobisDistanceClassifier B) (cache : Bool)
       (M N : Nat) (img : Fin M → Fin N → Fin B → ℚ),
       mc.classes ≠ [] → (cache = false → M * N = 0 ∨ 100 ≤ M * N) →
       ∃ m, mahalanobis_classify_image mc cache M N img = some m ∧
         ∀ (r : Fin M) (cc : Fin N),
           m r cc ∈ mc.classes.map (fun cl => cl.index)) := by
  constructor
  · intro B rlog c cache M N img hne hsmall
    cases cache with
    | true =>
      have hcond : ¬ ((c.classes.isEmpty : Prop) ∧ 0 < M * N) := by
        rintro ⟨h1, _⟩
        exact hne (List.isEmpty_iff.mp h1)
      refine ⟨fun r cc => (c.classes.map (fun cl => cl.index)).getD
          (np_argmax (c.classes.map
            (fun cl => gscore_batched rlog cl (img r cc)))) 0, ?_, ?_⟩
      · show gaussian_classify_image_cached rlog c M N img = _
        rw [gaussian_classify_image_cached, if_neg hcond]
      · intro r cc
        dsimp only
        rw [gaussian_pixel_eq rlog c (img r cc) hne]
        exact gaussian_classify_spectrum_mem rlog c (img r cc) hne
    | false =>
      rcases hsmall rfl with h0 | h100
      · refine ⟨fun _ _ => 0, ?_, ?_⟩
        · rw [gaussian_classify_image_stream_eq]
          exact classify_image_stream_empty _ M N img h0
        · intro r cc
          rcases Nat.mul_eq_zero.mp h0 with hM | hN
          · subst hM
            exact r.elim0
          · subst hN
            exact cc.elim0
      · obtain ⟨m, hm, hprop⟩ := classify_image_stream_some
          (gaussian_classify_spectrum rlog c) M N img h100
        refine ⟨m, ?_, ?_⟩
        · rw [gaussian_classify_image_stream_eq]
          exact hm
        · intro r cc
          rw [hprop r cc]
          exact gaussian_classify_spectrum_mem rlog c (img r cc) hne
  · intro B mc cache M N img hne hsmall
    cases cache with
    | true =>
      have hcond : ¬ ((mc.classes.isEmpty : Prop) ∧ 0 < M * N) := by
        rintro ⟨h1, _⟩
        exact hne (List.isEmpty_iff.mp h1)
      refine ⟨fun r cc => (mc.classes.map (fun cl => cl.index)).getD
          (np_argmin (mc.classes.map (fun cl =>
            rx_score { mc.background with mean := cl.stats.mean }
              (img r cc)))) 0, ?_, ?_⟩
      · show mahalanobis_classify_image_cached mc M N img = _
        rw [mahalanobis_classify_image_cached, if_neg hcond]
      · intro r cc
        dsimp only
        rw [mahalanobis_pixel_eq mc (img r cc) hne]
        exact mahalanobis_classify_spectrum_mem mc (img r cc) hne
    | false =>
      rcases hsmall rfl with h0 | h100
      · refine ⟨fun _ _ => 0, ?_, ?_⟩
        · rw [mahalanobis_classify_image_stream_eq]
          exact classify_image_stream_empty _ M N img h0
        · intro r cc
          rcases Nat.mul_eq_zero.mp h0 with hM | hN
          · subst hM
            exact r.elim0
          · subst hN
            exact cc.elim0
      · obtain ⟨m, hm, hprop⟩ := classify_image_stream_some
          (mahalanobis_classify_spectrum mc) M N img h100
        refine ⟨m, ?_, ?_⟩
        · rw [mahalanobis_classify_image_stream_eq]
          exact hm
        · intro r cc
          rw [hprop r cc]
          exact mahalanobis_classify_spectrum_mem mc (img r cc) hne

theorem classify_image_map_values_witness :
    (∃ m, gaussian_classify_image (fun q => q) gcEx false 10 10
        (fun _ _ _ => 0) = some m ∧
      ∀ (r : Fin 10) (cc : Fin 10),
        m r cc ∈ gcEx.classes.map (fun cl => cl.index)) ∧
    (∃ m, mahalanobis_classify_image mcEx false 10 10
        (fun _ _ _ => 0) = some m ∧
      ∀ (r : Fin 10) (cc : Fin 10),
        m r cc ∈ mcEx.classes.map (fun cl => cl.index)) :=
  ⟨classify_image_map_values.1 1 (fun q => q) gcEx false 10 10
     (fun _ _ _ => 0) (by simp [gcEx]) (fun _ => Or.inr (by decide)),
   classify_image_map_values.2 1 mcEx false 10 10
     (fun _ _ _ => 0) (by simp [mcEx]) (fun _ => Or.inr (by decide))⟩

/-- C8 counterexample to the claim as stated: a trained classifier with one
retained class and a 1×1 image, on which the default streaming path returns
no class map at all (division-by-zero error in the progress arithmetic). -/
theorem classify_image_small_image_no_map :
    gcEx.classes ≠ [] ∧
    gaussian_classify_image (fun q => q) gcEx false 1 1 (fun _ _ _ => 0) = none := by
  refine ⟨by simp [gcEx], ?_⟩
  rw [gaussian_classify_image_stream_eq]
  exact classify_image_stream_none _ 1 1 _ (by decide) (by decide)
